import Mathlib

/-!
Verification of the AionUi multi-key API credential manager
(`src/agent/gemini/keyManager.ts`) and the request orchestrator retry loop
(`GeminiAgent.submitQuery`).  Timestamps (`Date.now()`) are modelled as an
explicit `now : Nat` argument (milliseconds).  Asynchronous persistence and
the status-change callback are modelled as boolean effect flags where a claim
depends on them.
-/

namespace AionUi

/-- Health status of one API key (`IApiKey.status`). -/
inductive KeyStatus where
  | valid
  | rateLimited
  | invalid
deriving DecidableEq, Repr, BEq

/-- One credential, from `IApiKey` in `src/agent/gemini/types.ts`.
`errorCount` is optional in the TS interface but the manager always reads it
through `(errorCount || 0)`, so it is modelled as a plain `Nat`. -/
structure ApiKey where
  key : String
  status : KeyStatus
  resetTime : Option Nat
  lastUsed : Option Nat
  errorCount : Nat
deriving DecidableEq, Repr

/-- The in-memory state of the `KeyManager` class: the pool and the active
index. -/
structure KMState where
  keys : List ApiKey
  activeKeyIndex : Nat
deriving DecidableEq, Repr

/-- `switchToNextAvailableKey` loop body (`keyManager.ts` lines 83-112),
at loop counter `i` with `fuel` iterations left.  The loop runs while
`i < keys.length`; the caller passes `fuel = keys.length`, so `fuel = 0`
is exactly the loop exit `i = keys.length` (the lookup of the candidate is
`none` only for the empty pool, where the loop body never runs). -/
def switchGo (now : Nat) (s : KMState) (i : Nat) : Nat → Option ApiKey × KMState
  | 0 => (none, s)
  | fuel + 1 =>
    match s.keys[(s.activeKeyIndex + 1 + i) % s.keys.length]? with
    | none => (none, s)
    | some nextKey =>
      if nextKey.status = KeyStatus.valid then
        let nk := { nextKey with lastUsed := some now }
        (some nk, ⟨s.keys.set ((s.activeKeyIndex + 1 + i) % s.keys.length) nk,
                   (s.activeKeyIndex + 1 + i) % s.keys.length⟩)
      else if nextKey.status = KeyStatus.rateLimited ∧ now > nextKey.resetTime.getD 0 then
        let nk : ApiKey :=
          { nextKey with status := KeyStatus.valid, resetTime := none,
                         errorCount := 0, lastUsed := some now }
        (some nk, ⟨s.keys.set ((s.activeKeyIndex + 1 + i) % s.keys.length) nk,
                   (s.activeKeyIndex + 1 + i) % s.keys.length⟩)
      else
        switchGo now s (i + 1) fuel

/-- `KeyManager.switchToNextAvailableKey` (lines 83-112): scan the pool once
starting after the active index, wrapping. -/
def switchToNextAvailableKey (now : Nat) (s : KMState) : Option ApiKey × KMState :=
  switchGo now s 0 s.keys.length

/-- `KeyManager.getActiveKey` (lines 70-81).  An out-of-range active index on
a non-empty pool would be a TypeError in the source (reading `.status` of
`undefined`); that unreachable case is modelled as returning `none`. -/
def getActiveKey (now : Nat) (s : KMState) : Option ApiKey × KMState :=
  if s.keys.length = 0 then (none, s)
  else
    match s.keys[s.activeKeyIndex]? with
    | none => (none, s)
    | some activeKey =>
      if activeKey.status = KeyStatus.valid then
        let nk := { activeKey with lastUsed := some now }
        (some nk, ⟨s.keys.set s.activeKeyIndex nk, s.activeKeyIndex⟩)
      else
        switchToNextAvailableKey now s

/-- `KeyManager.switchToKey` (lines 114-143). -/
def switchToKey (now : Nat) (keyIndex : Nat) (s : KMState) : Bool × KMState :=
  match s.keys[keyIndex]? with
  | none => (false, s)
  | some targetKey =>
    if targetKey.status = KeyStatus.invalid then (false, s)
    else
      let t1 : ApiKey :=
        if targetKey.status = KeyStatus.rateLimited ∧ now > targetKey.resetTime.getD 0 then
          { targetKey with status := KeyStatus.valid, resetTime := none, errorCount := 0 }
        else targetKey
      if t1.status = KeyStatus.valid then
        let t2 := { t1 with lastUsed := some now }
        (true, ⟨s.keys.set keyIndex t2, keyIndex⟩)
      else
        (false, s)

/-- Result of a marking operation: the new state, whether the status-change
callback fired, and whether state was persisted. -/
structure MarkResult where
  state : KMState
  notified : Bool
  persisted : Bool
deriving DecidableEq, Repr

/-- `KeyManager.markCurrentAsRateLimited` (lines 149-163).  The guard
`if (this.keys[this.activeKeyIndex])` holds exactly when the active index is
in range.  A supplied override of `0` is falsy in `resetTime || default`, so
it falls back to the computed backoff. -/
def markCurrentAsRateLimited (now : Nat) (resetTime : Option Nat) (s : KMState) : MarkResult :=
  match s.keys[s.activeKeyIndex]? with
  | none => ⟨s, false, false⟩
  | some key =>
    let ec := key.errorCount + 1
    let baseResetTime := 60 * 1000
    let backoffMultiplier := min ec 5
    let rt :=
      match resetTime with
      | some r => if r = 0 then now + baseResetTime * backoffMultiplier else r
      | none => now + baseResetTime * backoffMultiplier
    let key' := { key with status := KeyStatus.rateLimited, errorCount := ec,
                           resetTime := some rt }
    ⟨⟨s.keys.set s.activeKeyIndex key', s.activeKeyIndex⟩, true, true⟩

/-- `KeyManager.markCurrentAsInvalid` (lines 165-173). -/
def markCurrentAsInvalid (s : KMState) : MarkResult :=
  match s.keys[s.activeKeyIndex]? with
  | none => ⟨s, false, false⟩
  | some key =>
    let key' := { key with status := KeyStatus.invalid, errorCount := key.errorCount + 1 }
    ⟨⟨s.keys.set s.activeKeyIndex key', s.activeKeyIndex⟩, true, true⟩

/-- `KeyManager.addKey` (lines 197-216). -/
def addKey (newKey : String) (s : KMState) : Bool × KMState :=
  if s.keys.length ≥ 5 then (false, s)
  else if s.keys.any (fun k => k.key = newKey) then (false, s)
  else (true, ⟨s.keys ++ [⟨newKey, KeyStatus.valid, none, none, 0⟩], s.activeKeyIndex⟩)

/-- `KeyManager.removeKey` (lines 218-237).  Indices are natural numbers, so
the `keyIndex < 0` rejection of the source is vacuous; `Nat` subtraction
realises `Math.max(0, activeKeyIndex - 1)`. -/
def removeKey (keyIndex : Nat) (s : KMState) : Bool × KMState :=
  if keyIndex ≥ s.keys.length ∨ s.keys.length ≤ 1 then (false, s)
  else
    let keys' := s.keys.eraseIdx keyIndex
    let idx' := if s.activeKeyIndex ≥ keyIndex then s.activeKeyIndex - 1 else s.activeKeyIndex
    (true, ⟨keys', idx'⟩)

/-- `cleanupExpiredRateLimits` applied to one key (lines 268-281).  The source
condition is `key.status === "rate-limited" && key.resetTime && now > key.resetTime`;
a `resetTime` of `0` is falsy and therefore not cleaned up. -/
def cleanupKey (now : Nat) (k : ApiKey) : ApiKey :=
  match k.resetTime with
  | some rt =>
    if k.status = KeyStatus.rateLimited ∧ rt ≠ 0 ∧ now > rt then
      { k with status := KeyStatus.valid, resetTime := none, errorCount := 0 }
    else k
  | none => k

/-- `KeyManager.cleanupExpiredRateLimits` (lines 268-281). -/
def cleanupExpiredRateLimits (now : Nat) (s : KMState) : KMState :=
  ⟨s.keys.map (cleanupKey now), s.activeKeyIndex⟩

/-- `KeyManager.updateKeys` (lines 239-266).  The thrown error is modelled as
`Except.error`; the manager state is unchanged in that case because the source
throws before mutating. -/
def updateKeys (now : Nat) (newKeys : List String) (s : KMState) : Except String KMState :=
  if newKeys.length = 0 ∨ newKeys.length > 5 then
    Except.error "Must have between 1 and 5 API keys"
  else
    let updatedKeys := newKeys.map fun key =>
      match s.keys.find? (fun k => k.key = key) with
      | some existingKey => existingKey
      | none => (⟨key, KeyStatus.valid, none, none, 0⟩ : ApiKey)
    let idx := if s.activeKeyIndex ≥ updatedKeys.length then 0 else s.activeKeyIndex
    Except.ok (cleanupExpiredRateLimits now ⟨updatedKeys, idx⟩)

/-- One row of `KeyManager.getKeyStatuses` (lines 179-196). -/
structure KeyStatusView where
  key : String
  status : KeyStatus
  resetTime : Option Nat
  timeUntilReset : Option Nat
  isActive : Bool
deriving DecidableEq, Repr

/-- The masking expression of `getKeyStatuses` (line 188):
`key.substring(0, 8) + "..." + key.substring(key.length - 4)`.
`String.take`/`String.drop` clamp exactly as `substring` does. -/
def maskKey (key : String) : String :=
  key.take 8 ++ "..." ++ key.drop (key.length - 4)

/-- `KeyManager.getKeyStatuses` (lines 179-196).  `key.resetTime ? ... :
undefined` treats a zero `resetTime` as absent; `Nat` subtraction realises
`Math.max(0, resetTime - now)`. -/
def getKeyStatuses (now : Nat) (s : KMState) : List KeyStatusView :=
  s.keys.mapIdx fun index k =>
    { key := maskKey k.key
      status := k.status
      resetTime := k.resetTime
      timeUntilReset :=
        match k.resetTime with
        | some rt => if rt = 0 then none else some (rt - now)
        | none => none
      isActive := index = s.activeKeyIndex }

/-- `KeyManager.hasAvailableKeys` (lines 315-321). -/
def hasAvailableKeys (now : Nat) (s : KMState) : Bool :=
  s.keys.any fun key =>
    key.status == KeyStatus.valid ||
      (key.status == KeyStatus.rateLimited && decide (now > key.resetTime.getD 0))

/-- A pool entry qualifies for selection by the rotation scan: it is `valid`,
or `rate-limited` with its reset time passed (`resetTime || 0` in the source). -/
def qualifies (now : Nat) (k : ApiKey) : Bool :=
  decide (k.status = KeyStatus.valid) ||
    (decide (k.status = KeyStatus.rateLimited) && decide (now > k.resetTime.getD 0))

/-- What the rotation scan does to the key it selects: a `valid` key only has
`lastUsed` stamped; a rate-limit-expired key is additionally resurrected. -/
def selectKey (now : Nat) (k : ApiKey) : ApiKey :=
  if k.status = KeyStatus.valid then { k with lastUsed := some now }
  else { k with status := KeyStatus.valid, resetTime := none, errorCount := 0,
                lastUsed := some now }

/-- The `i`-th candidate examined by the rotation scan, as an optional lookup. -/
def candAt (s : KMState) (i : Nat) : Option ApiKey :=
  s.keys[(s.activeKeyIndex + 1 + i) % s.keys.length]?

/-- `qualifies` lifted to the optional candidate. -/
def qualifiesO (now : Nat) (k : Option ApiKey) : Bool :=
  match k with
  | some k => qualifies now k
  | none => false

/-- `IKeyManagerState` from `types.ts`: the persisted snapshot. -/
structure PersistedState where
  keys : List ApiKey
  activeKeyIndex : Nat
  lastRotationTime : Option Nat
deriving DecidableEq, Repr

/-- The fields of `IGeminiConfig` that `KeyManager.init`/`persistState` read
and write. -/
structure GeminiConfig where
  GEMINI_API_KEY : Option String
  GEMINI_API_KEYS : Option (List String)
  activeKeyIndex : Option Nat
  keyManagerState : Option PersistedState
deriving DecidableEq, Repr

/-- The per-secret reconciliation of `KeyManager.init` (lines 43-52): look the
configured secret up in the saved snapshot and reuse its fields, else start
fresh.  `savedKey?.status || "valid"` and `savedKey?.errorCount || 0` reduce to
the saved values (statuses are never falsy and `0 || 0 = 0`). -/
def initKeys (apiKeys : List String) (savedKeys : List ApiKey) : List ApiKey :=
  apiKeys.map fun key =>
    match savedKeys.find? (fun k => k.key = key) with
    | some savedKey =>
      ⟨key, savedKey.status, savedKey.resetTime, savedKey.lastUsed, savedKey.errorCount⟩
    | none => ⟨key, KeyStatus.valid, none, none, 0⟩

/-- `KeyManager.init` (lines 17-68) on a fresh (never initialized) manager,
whose fields start as `keys = []`, `activeKeyIndex = 0`.  The truthiness tests
of the source are made explicit: a missing or empty `GEMINI_API_KEY` string is
falsy, as is a configured `activeKeyIndex` of `0`. -/
def init (now : Nat) (config : Option GeminiConfig) : KMState :=
  match config with
  | none => cleanupExpiredRateLimits now ⟨[], 0⟩
  | some cfg =>
    let savedState := cfg.keyManagerState
    let singleKey := cfg.GEMINI_API_KEY.getD ""
    let useSingle := singleKey ≠ "" ∧ (cfg.GEMINI_API_KEYS.getD []).length = 0
    let apiKeys := if useSingle then [singleKey] else cfg.GEMINI_API_KEYS.getD []
    let activeIndex := if useSingle then 0 else cfg.activeKeyIndex.getD 0
    let keys := initKeys apiKeys ((savedState.map PersistedState.keys).getD [])
    let idx :=
      match savedState with
      | some st =>
        if st.activeKeyIndex < keys.length then st.activeKeyIndex
        else if activeIndex ≠ 0 ∧ activeIndex < keys.length then activeIndex
        else 0
      | none =>
        if activeIndex ≠ 0 ∧ activeIndex < keys.length then activeIndex
        else 0
    cleanupExpiredRateLimits now ⟨keys, idx⟩

/-- `KeyManager.persistState` (lines 283-301): write the snapshot plus the
denormalized flat secret list and active index into the config record. -/
def persistState (now : Nat) (s : KMState) (cfg : Option GeminiConfig) : GeminiConfig :=
  let c := cfg.getD ⟨none, none, none, none⟩
  { c with keyManagerState := some ⟨s.keys, s.activeKeyIndex, some now⟩,
           GEMINI_API_KEYS := some (s.keys.map ApiKey.key),
           activeKeyIndex := some s.activeKeyIndex }

/-! ### The request orchestrator (`GeminiAgent.submitQuery`, part_001 lines 261-339) -/

/-- Outcome of one synchronous call to the external transport
(`geminiClient.sendMessageStream`): synchronous acceptance of the stream, or a
synchronous rejection with an error message. -/
inductive TransportResult where
  | success
  | failure (msg : String)
deriving DecidableEq, Repr

/-- Events emitted synchronously by `submitQuery` through `onStreamEvent`.
The asynchronous events of the accepted stream (`handleMessage`, `finish`) are
outside this model. -/
inductive StreamEvent where
  | start
  | info (msg : String)
  | error (msg : String)
deriving DecidableEq, Repr

/-- Result of the retry loop: events in emission order, the key manager state
left behind, and how many transport attempts were made. -/
structure SubmitResult where
  events : List StreamEvent
  state : KMState
  attempts : Nat
deriving DecidableEq, Repr

/-- Substring containment, as JavaScript `String.prototype.includes`. -/
def strIncludes (s pat : String) : Bool :=
  (List.range (s.length + 1)).any fun i => pat.data.isPrefixOf (s.data.drop i)

/-- `String.prototype.toLowerCase`, character by character. -/
def lowerStr (s : String) : String := String.mk (s.data.map Char.toLower)

/-- The rate-limit classification of `submitQuery` (part_001 lines 298-301):
the message contains `"429"`, or its lower-casing contains `"quota"` or
`"rate limit"`. -/
def isRateLimitError (msg : String) : Bool :=
  strIncludes msg "429" || strIncludes (lowerStr msg) "quota" ||
    strIncludes (lowerStr msg) "rate limit"

/-- The retry loop of `submitQuery`, at iteration `i` with `fuel =
maxRetries - i` iterations left; `lastError` is the last captured message.
`transport j` is the synchronous outcome of the attempt at iteration `j`
(the external transport is an opaque collaborator).  When the loop exits,
the terminal `error` event carries `lastError?.message ||
"All API keys are exhausted."`. -/
def submitQueryGo (transport : Nat → TransportResult) (now maxRetries : Nat) :
    Nat → Option String → KMState → Nat → SubmitResult
  | _, lastError, s, 0 =>
    ⟨[StreamEvent.error (lastError.getD "All API keys are exhausted.")], s, 0⟩
  | i, _, s, fuel + 1 =>
    match transport i with
    | TransportResult.success => ⟨[StreamEvent.start], s, i + 1⟩
    | TransportResult.failure msg =>
      let isRL := isRateLimitError msg
      if i < maxRetries - 1 then
        let s1 := if isRL then (markCurrentAsRateLimited now none s).state
                  else (markCurrentAsInvalid s).state
        match switchToNextAvailableKey now s1 with
        | (some _, s2) =>
          let ev := StreamEvent.info
            (if isRL then "API key rate-limited. Switching to the next available key."
             else "API key is invalid. Switching to the next available key.")
          let r := submitQueryGo transport now maxRetries (i + 1) (some msg) s2 fuel
          ⟨ev :: r.events, r.state, r.attempts⟩
        | (none, s2) => ⟨[StreamEvent.error msg], s2, i + 1⟩
      else
        ⟨[StreamEvent.error msg], s, i + 1⟩

/-- `GeminiAgent.submitQuery` (part_001 lines 261-339):
`maxRetries = keyManager.getAllKeys().length || 1`; the loop starts at 0 with
no captured error. -/
def submitQuery (transport : Nat → TransportResult) (now : Nat) (s : KMState) : SubmitResult :=
  let maxRetries := max s.keys.length 1
  submitQueryGo transport now maxRetries 0 none s maxRetries

/-- Iterated `markCurrentAsRateLimited` with no override: `markRLtimes T k`
performs calls `1..k` in order, the `j`-th at time `T j`. -/
def markRLtimes (T : Nat → Nat) : Nat → KMState → KMState
  | 0, s => s
  | k + 1, s => (markCurrentAsRateLimited (T (k + 1)) none (markRLtimes T k s)).state

/-- Well-formedness of a manager state: non-empty pool and in-range active
index. -/
def WF (s : KMState) : Prop :=
  0 < s.keys.length ∧ s.activeKeyIndex < s.keys.length

theorem WF_iff (s : KMState) :
    WF s ↔ 0 < s.keys.length ∧ s.activeKeyIndex < s.keys.length := Iff.rfl

/-! ### Lemmas about the rotation scan -/

theorem qualifies_eq_true_iff (now : Nat) (k : ApiKey) :
    qualifies now k = true ↔
      k.status = KeyStatus.valid ∨
        (k.status = KeyStatus.rateLimited ∧ now > k.resetTime.getD 0) := by
  simp [qualifies]

theorem qualifies_eq_false_iff (now : Nat) (k : ApiKey) :
    qualifies now k = false ↔
      k.status ≠ KeyStatus.valid ∧
        ¬(k.status = KeyStatus.rateLimited ∧ now > k.resetTime.getD 0) := by
  rw [← Bool.not_eq_true, qualifies_eq_true_iff]
  tauto

theorem switchGo_none (now : Nat) (s : KMState) :
    ∀ (fuel i : Nat),
      (∀ m, i ≤ m → m < i + fuel → qualifiesO now (candAt s m) = false) →
      switchGo now s i fuel = (none, s) := by
  intro fuel
  induction fuel with
  | zero => intro i _; rfl
  | succ f ih =>
    intro i h
    have hqi := h i (Nat.le_refl i) (by omega)
    cases hki : s.keys[(s.activeKeyIndex + 1 + i) % s.keys.length]? with
    | none => simp only [switchGo, hki]
    | some ki =>
      have hq : qualifies now ki = false := by
        simpa [qualifiesO, candAt, hki] using hqi
      rw [qualifies_eq_false_iff] at hq
      simp only [switchGo, hki, if_neg hq.1, if_neg hq.2]
      exact ih (i + 1) (fun m h1 h2 => h m (by omega) (by omega))

theorem switchGo_select (now : Nat) (s : KMState) :
    ∀ (fuel i j : Nat) (k : ApiKey), i ≤ j → j - i < fuel →
      candAt s j = some k → qualifies now k = true →
      (∀ m, i ≤ m → m < j → qualifiesO now (candAt s m) = false) →
      switchGo now s i fuel =
        (some (selectKey now k),
         ⟨s.keys.set ((s.activeKeyIndex + 1 + j) % s.keys.length) (selectKey now k),
          (s.activeKeyIndex + 1 + j) % s.keys.length⟩) := by
  intro fuel
  induction fuel with
  | zero => intro i j k hij hf _ _ _; omega
  | succ f ih =>
    intro i j k hij hf hc hq hprev
    by_cases hij' : i = j
    · subst hij'
      have hki : s.keys[(s.activeKeyIndex + 1 + i) % s.keys.length]? = some k := hc
      rw [qualifies_eq_true_iff] at hq
      rcases hq with hv | ⟨hrl, hrt⟩
      · simp only [switchGo, hki, if_pos hv, selectKey, Prod.mk.injEq]
      · have hnv : k.status ≠ KeyStatus.valid := by rw [hrl]; intro h; cases h
        simp only [switchGo, hki, if_neg hnv, if_pos (And.intro hrl hrt), selectKey,
          if_neg hnv]
    · have hlt : i < j := Nat.lt_of_le_of_ne hij hij'
      have hn : 0 < s.keys.length := by
        rcases Nat.eq_zero_or_pos s.keys.length with h0 | h
        · exfalso
          have hnil : s.keys = [] := List.length_eq_zero.mp h0
          rw [candAt, hnil] at hc
          simp at hc
        · exact h
      have hki : ∃ ki, s.keys[(s.activeKeyIndex + 1 + i) % s.keys.length]? = some ki := by
        refine ⟨_, List.getElem?_eq_getElem (Nat.mod_lt _ hn)⟩
      obtain ⟨ki, hki⟩ := hki
      have hqi : qualifies now ki = false := by
        have := hprev i (Nat.le_refl i) hlt
        simpa [qualifiesO, candAt, hki] using this
      rw [qualifies_eq_false_iff] at hqi
      simp only [switchGo, hki, if_neg hqi.1, if_neg hqi.2]
      exact ih (i + 1) j k hlt (by omega) hc hq
        (fun m h1 h2 => hprev m (by omega) h2)

theorem switchGo_fst_valid (now : Nat) (s : KMState) :
    ∀ (fuel i : Nat) (k : ApiKey),
      (switchGo now s i fuel).1 = some k → k.status = KeyStatus.valid := by
  intro fuel
  induction fuel with
  | zero => intro i k h; simp [switchGo] at h
  | succ f ih =>
    intro i k h
    cases hki : s.keys[(s.activeKeyIndex + 1 + i) % s.keys.length]? with
    | none => rw [switchGo] at h; simp [hki] at h
    | some nk =>
      rw [switchGo] at h; simp only [hki] at h
      by_cases h1 : nk.status = KeyStatus.valid
      · rw [if_pos h1] at h
        simp only [Option.some.injEq] at h
        rw [← h]
        exact h1
      · rw [if_neg h1] at h
        by_cases h2 : nk.status = KeyStatus.rateLimited ∧ now > nk.resetTime.getD 0
        · rw [if_pos h2] at h
          simp only [Option.some.injEq] at h
          rw [← h]
        · rw [if_neg h2] at h
          exact ih (i + 1) k h

theorem switchGo_invalid_entry (now : Nat) (s : KMState) (idx : Nat) (k0 : ApiKey)
    (hk : s.keys[idx]? = some k0) (hinv : k0.status = KeyStatus.invalid) :
    ∀ (fuel i : Nat), ((switchGo now s i fuel).2).keys[idx]? = some k0 := by
  intro fuel
  induction fuel with
  | zero => intro i; simpa [switchGo] using hk
  | succ f ih =>
    intro i
    cases hki : s.keys[(s.activeKeyIndex + 1 + i) % s.keys.length]? with
    | none => rw [switchGo]; simp only [hki]; exact hk
    | some nk =>
      rw [switchGo]; simp only [hki]
      by_cases h1 : nk.status = KeyStatus.valid
      · rw [if_pos h1]
        have hne : (s.activeKeyIndex + 1 + i) % s.keys.length ≠ idx := by
          intro he
          rw [he, hk] at hki
          cases hki
          rw [hinv] at h1
          cases h1
        simpa [List.getElem?_set_ne hne] using hk
      · rw [if_neg h1]
        by_cases h2 : nk.status = KeyStatus.rateLimited ∧ now > nk.resetTime.getD 0
        · rw [if_pos h2]
          have hne : (s.activeKeyIndex + 1 + i) % s.keys.length ≠ idx := by
            intro he
            rw [he, hk] at hki
            cases hki
            rw [hinv] at h2
            exact absurd h2.1 (by intro h; cases h)
          simpa [List.getElem?_set_ne hne] using hk
        · rw [if_neg h2]
          exact ih (i + 1)

theorem switchGo_wf (now : Nat) (s : KMState) (hwf : WF s) :
    ∀ (fuel i : Nat), WF (switchGo now s i fuel).2 := by
  intro fuel
  induction fuel with
  | zero => intro i; exact hwf
  | succ f ih =>
    intro i
    cases hki : s.keys[(s.activeKeyIndex + 1 + i) % s.keys.length]? with
    | none => rw [switchGo]; simp only [hki]; exact hwf
    | some nk =>
      have hidx : (s.activeKeyIndex + 1 + i) % s.keys.length < s.keys.length := by
        by_contra hge
        rw [List.getElem?_eq_none (by omega)] at hki
        cases hki
      rw [switchGo]; simp only [hki]
      by_cases h1 : nk.status = KeyStatus.valid
      · rw [if_pos h1]
        exact ⟨by simpa using hwf.1, by simpa using hidx⟩
      · rw [if_neg h1]
        by_cases h2 : nk.status = KeyStatus.rateLimited ∧ now > nk.resetTime.getD 0
        · rw [if_pos h2]
          exact ⟨by simpa using hwf.1, by simpa using hidx⟩
        · rw [if_neg h2]
          exact ih (i + 1)

/-! ### Claim C2: the rotation scan -/

/-- **C2.** For every pool of size `n` and every active index,
`switchToNextAvailableKey` examines exactly the `n` candidates at indices
`(activeIndex+1+i) % n` for `i = 0..n-1` in that order and selects the first
candidate that is valid, or the first that is rate-limited with the current
time past its reset time — resurrecting the latter in place (status `valid`,
`resetTime` cleared, `errorCount` 0, captured by `selectKey`); on selection it
sets `activeKeyIndex` to the selected index and stamps the key's `lastUsed`;
if no candidate qualifies after the full wrap it returns none and leaves the
state unchanged. -/
theorem c2_rotation (now : Nat) (s : KMState) :
    ((∀ i, i < s.keys.length → qualifiesO now (candAt s i) = false) →
        switchToNextAvailableKey now s = (none, s)) ∧
    (∀ j k, j < s.keys.length → candAt s j = some k → qualifies now k = true →
        (∀ i, i < j → qualifiesO now (candAt s i) = false) →
        switchToNextAvailableKey now s =
          (some (selectKey now k),
           ⟨s.keys.set ((s.activeKeyIndex + 1 + j) % s.keys.length) (selectKey now k),
            (s.activeKeyIndex + 1 + j) % s.keys.length⟩)) := by
  constructor
  · intro h
    exact switchGo_none now s s.keys.length 0 (fun m _ h2 => h m (by omega))
  · intro j k hj hc hq hprev
    exact switchGo_select now s s.keys.length 0 j k (Nat.zero_le j) (by omega) hc hq
      (fun m _ h2 => hprev m h2)

/-- Witness for `c2_rotation`: active index 0 in a three-key pool, candidate 0
(index 1) is invalid, candidate 1 (index 2) is valid and gets selected. -/
theorem c2_rotation_witness :
    switchToNextAvailableKey 100
        ⟨[⟨"a", KeyStatus.valid, none, none, 0⟩,
          ⟨"b", KeyStatus.invalid, none, none, 1⟩,
          ⟨"c", KeyStatus.valid, none, none, 0⟩], 0⟩ =
      (some ⟨"c", KeyStatus.valid, none, some 100, 0⟩,
       ⟨[⟨"a", KeyStatus.valid, none, none, 0⟩,
         ⟨"b", KeyStatus.invalid, none, none, 1⟩,
         ⟨"c", KeyStatus.valid, none, some 100, 0⟩], 2⟩) :=
  (c2_rotation 100
      ⟨[⟨"a", KeyStatus.valid, none, none, 0⟩,
        ⟨"b", KeyStatus.invalid, none, none, 1⟩,
        ⟨"c", KeyStatus.valid, none, none, 0⟩], 0⟩).2 1
    ⟨"c", KeyStatus.valid, none, none, 0⟩ (by decide) rfl (by decide) (by decide)

/-! ### Claim C5: invalid keys are never selected, never revived in one step -/

/-- The cleanup pass never touches a key that is not rate-limited. -/
theorem cleanupKey_of_not_rateLimited (now : Nat) (k : ApiKey)
    (h : k.status ≠ KeyStatus.rateLimited) : cleanupKey now k = k := by
  cases hrt : k.resetTime with
  | none => simp [cleanupKey, hrt]
  | some rt => simp [cleanupKey, hrt, h]

/-- **C5.** `getActiveKey` and `switchToNextAvailableKey` never return a key
whose status is invalid (every returned key is in fact valid), and none of the
automatic paths — rotation, `getActiveKey`, `switchToKey`, the expired-rate-
limit cleanup, `markCurrentAsRateLimited`, `markCurrentAsInvalid` — changes a
key's status from invalid to valid. -/
theorem c5_invalid_never (now : Nat) (rt : Option Nat) (j : Nat) (s : KMState) (i : Nat) :
    (∀ k, (switchToNextAvailableKey now s).1 = some k → k.status = KeyStatus.valid) ∧
    (∀ k, (getActiveKey now s).1 = some k → k.status = KeyStatus.valid) ∧
    (∀ k0, s.keys[i]? = some k0 → k0.status = KeyStatus.invalid →
      (∀ k', (switchToNextAvailableKey now s).2.keys[i]? = some k' →
          k'.status ≠ KeyStatus.valid) ∧
      (∀ k', (getActiveKey now s).2.keys[i]? = some k' → k'.status ≠ KeyStatus.valid) ∧
      (∀ k', (switchToKey now j s).2.keys[i]? = some k' → k'.status ≠ KeyStatus.valid) ∧
      (∀ k', (cleanupExpiredRateLimits now s).keys[i]? = some k' →
          k'.status ≠ KeyStatus.valid) ∧
      (∀ k', (markCurrentAsRateLimited now rt s).state.keys[i]? = some k' →
          k'.status ≠ KeyStatus.valid) ∧
      (∀ k', (markCurrentAsInvalid s).state.keys[i]? = some k' →
          k'.status ≠ KeyStatus.valid)) := by
  refine ⟨?_, ?_, ?_⟩
  · intro k h
    exact switchGo_fst_valid now s s.keys.length 0 k h
  · intro k h
    unfold getActiveKey at h
    by_cases h0 : s.keys.length = 0
    · rw [if_pos h0] at h; simp at h
    · rw [if_neg h0] at h
      cases hki : s.keys[s.activeKeyIndex]? with
      | none => simp only [hki] at h; simp at h
      | some ak =>
        simp only [hki] at h
        by_cases hv : ak.status = KeyStatus.valid
        · rw [if_pos hv] at h
          simp only [Option.some.injEq] at h
          rw [← h]
          exact hv
        · rw [if_neg hv] at h
          exact switchGo_fst_valid now s s.keys.length 0 k h
  · intro k0 hk hinv
    have hvne : k0.status ≠ KeyStatus.valid := by rw [hinv]; intro h; cases h
    refine ⟨?_, ?_, ?_, ?_, ?_, ?_⟩
    · intro k' h'
      have hu := switchGo_invalid_entry now s i k0 hk hinv s.keys.length 0
      rw [show (switchToNextAvailableKey now s).2 = (switchGo now s 0 s.keys.length).2
        from rfl] at h'
      rw [hu] at h'
      cases h'
      exact hvne
    · intro k' h'
      unfold getActiveKey at h'
      by_cases h0 : s.keys.length = 0
      · rw [if_pos h0] at h'
        rw [hk] at h'
        cases h'
        exact hvne
      · rw [if_neg h0] at h'
        cases hki : s.keys[s.activeKeyIndex]? with
        | none =>
          simp only [hki] at h'
          rw [hk] at h'
          cases h'
          exact hvne
        | some ak =>
          simp only [hki] at h'
          by_cases hv : ak.status = KeyStatus.valid
          · rw [if_pos hv] at h'
            by_cases he : s.activeKeyIndex = i
            · rw [he, hk] at hki
              cases hki
              exact absurd hv hvne
            · simp only [List.getElem?_set_ne he, hk, Option.some.injEq] at h'
              rw [← h']
              exact hvne
          · rw [if_neg hv] at h'
            have hu := switchGo_invalid_entry now s i k0 hk hinv s.keys.length 0
            rw [show (switchToNextAvailableKey now s).2 = (switchGo now s 0 s.keys.length).2
              from rfl] at h'
            rw [hu] at h'
            cases h'
            exact hvne
    · intro k' h'
      unfold switchToKey at h'
      cases hkj : s.keys[j]? with
      | none =>
        simp only [hkj] at h'
        rw [hk] at h'
        cases h'
        exact hvne
      | some target =>
        simp only [hkj] at h'
        by_cases hti : target.status = KeyStatus.invalid
        · rw [if_pos hti] at h'
          rw [hk] at h'
          cases h'
          exact hvne
        · rw [if_neg hti] at h'
          have hji : j ≠ i := by
            intro he
            rw [he, hk] at hkj
            cases hkj
            exact hti hinv
          by_cases hres : target.status = KeyStatus.rateLimited ∧ now > target.resetTime.getD 0
          · rw [if_pos hres] at h'
            have hvv : ({ target with status := KeyStatus.valid, resetTime := none, errorCount := 0 } : ApiKey).status = KeyStatus.valid := rfl
            rw [if_pos hvv] at h'
            simp only [List.getElem?_set_ne hji, hk, Option.some.injEq] at h'
            rw [← h']
            exact hvne
          · rw [if_neg hres] at h'
            by_cases hvv : target.status = KeyStatus.valid
            · rw [if_pos hvv] at h'
              simp only [List.getElem?_set_ne hji, hk, Option.some.injEq] at h'
              rw [← h']
              exact hvne
            · rw [if_neg hvv] at h'
              rw [hk] at h'
              cases h'
              exact hvne
    · intro k' h'
      unfold cleanupExpiredRateLimits at h'
      rw [List.getElem?_map, hk] at h'
      simp only [Option.map_some', Option.some.injEq] at h'
      rw [← h', cleanupKey_of_not_rateLimited now k0 (by rw [hinv]; intro h; cases h)]
      exact hvne
    · intro k' h'
      unfold markCurrentAsRateLimited at h'
      cases hka : s.keys[s.activeKeyIndex]? with
      | none =>
        simp only [hka] at h'
        rw [hk] at h'
        cases h'
        exact hvne
      | some key =>
        simp only [hka] at h'
        by_cases he : s.activeKeyIndex = i
        · have hlt : s.activeKeyIndex < s.keys.length := by
            by_contra hge
            rw [List.getElem?_eq_none (by omega)] at hka
            cases hka
          rw [he] at hlt h'
          simp only [List.getElem?_set_self hlt, Option.some.injEq] at h'
          rw [← h']
          intro hcon
          cases hcon
        · simp only [List.getElem?_set_ne he, hk, Option.some.injEq] at h'
          rw [← h']
          exact hvne
    · intro k' h'
      unfold markCurrentAsInvalid at h'
      cases hka : s.keys[s.activeKeyIndex]? with
      | none =>
        simp only [hka] at h'
        rw [hk] at h'
        cases h'
        exact hvne
      | some key =>
        simp only [hka] at h'
        by_cases he : s.activeKeyIndex = i
        · have hlt : s.activeKeyIndex < s.keys.length := by
            by_contra hge
            rw [List.getElem?_eq_none (by omega)] at hka
            cases hka
          rw [he] at hlt h'
          simp only [List.getElem?_set_self hlt, Option.some.injEq] at h'
          rw [← h']
          intro hcon
          cases hcon
        · simp only [List.getElem?_set_ne he, hk, Option.some.injEq] at h'
          rw [← h']
          exact hvne

/-- Witness for `c5_invalid_never`: marking the (invalid) active key of a
one-key pool as rate-limited leaves it non-valid. -/
theorem c5_invalid_never_witness :
    (⟨"x", KeyStatus.rateLimited, some 180007, none, 3⟩ : ApiKey).status ≠ KeyStatus.valid :=
  ((c5_invalid_never 7 none 0 ⟨[⟨"x", KeyStatus.invalid, none, none, 2⟩], 0⟩ 0).2.2
      ⟨"x", KeyStatus.invalid, none, none, 2⟩ rfl rfl).2.2.2.2.1
    ⟨"x", KeyStatus.rateLimited, some 180007, none, 3⟩ rfl

/-! ### Claim C8: well-formedness is preserved by every operation -/

/-- **C8.** Starting from a state with a non-empty pool and an in-range active
index, every operation — `addKey`, `removeKey`, `updateKeys`, `switchToKey`,
`switchToNextAvailableKey`, `markCurrentAsRateLimited`, `markCurrentAsInvalid`,
`getActiveKey` — leaves the pool non-empty and the active index in range. -/
theorem c8_invariant (now : Nat) (nk : String) (i j : Nat) (rt : Option Nat)
    (l : List String) (s : KMState) (hwf : WF s) :
    WF (addKey nk s).2 ∧
    WF (removeKey i s).2 ∧
    (∀ s', updateKeys now l s = Except.ok s' → WF s') ∧
    WF (switchToKey now j s).2 ∧
    WF (switchToNextAvailableKey now s).2 ∧
    WF (markCurrentAsRateLimited now rt s).state ∧
    WF (markCurrentAsInvalid s).state ∧
    WF (getActiveKey now s).2 := by
  obtain ⟨hpos, hidx⟩ := hwf
  refine ⟨?_, ?_, ?_, ?_, ?_, ?_, ?_, ?_⟩
  · unfold addKey
    split_ifs
    · exact ⟨hpos, hidx⟩
    · exact ⟨hpos, hidx⟩
    · rw [WF_iff]
      simp only [List.length_append]
      constructor <;> omega
  · unfold removeKey
    dsimp only
    split_ifs with h1 h2
    · exact ⟨hpos, hidx⟩
    · rw [WF_iff]
      simp only [List.length_eraseIdx]
      constructor
      · split_ifs <;> omega
      · split_ifs <;> omega
    · rw [WF_iff]
      simp only [List.length_eraseIdx]
      constructor
      · split_ifs <;> omega
      · split_ifs <;> omega
  · intro s' h
    unfold updateKeys at h
    split_ifs at h with h1
    push_neg at h1
    simp only [Except.ok.injEq] at h
    rw [← h]
    constructor
    · simp only [cleanupExpiredRateLimits, List.length_map]
      omega
    · simp only [cleanupExpiredRateLimits, List.length_map]
      split_ifs <;> omega
  · unfold switchToKey
    cases hkj : s.keys[j]? with
    | none => exact ⟨hpos, hidx⟩
    | some target =>
      have hj : j < s.keys.length := by
        by_contra hge
        rw [List.getElem?_eq_none (by omega)] at hkj
        cases hkj
      dsimp only
      split_ifs
      · exact ⟨hpos, hidx⟩
      · exact ⟨by simpa using hpos, by simpa using hj⟩
      · exact ⟨hpos, hidx⟩
      · exact ⟨by simpa using hpos, by simpa using hj⟩
      · exact ⟨hpos, hidx⟩
  · exact switchGo_wf now s ⟨hpos, hidx⟩ s.keys.length 0
  · unfold markCurrentAsRateLimited
    cases hka : s.keys[s.activeKeyIndex]? with
    | none => exact ⟨hpos, hidx⟩
    | some key => exact ⟨by simpa using hpos, by simpa using hidx⟩
  · unfold markCurrentAsInvalid
    cases hka : s.keys[s.activeKeyIndex]? with
    | none => exact ⟨hpos, hidx⟩
    | some key => exact ⟨by simpa using hpos, by simpa using hidx⟩
  · unfold getActiveKey
    split_ifs with h0
    · exact ⟨hpos, hidx⟩
    · cases hka : s.keys[s.activeKeyIndex]? with
      | none => exact ⟨hpos, hidx⟩
      | some ak =>
        dsimp only
        split_ifs
        · exact ⟨by simpa using hpos, by simpa using hidx⟩
        · exact switchGo_wf now s ⟨hpos, hidx⟩ s.keys.length 0

/-- Witness for `c8_invariant`: adding a key to a well-formed one-key pool
keeps the state well-formed. -/
theorem c8_invariant_witness :
    WF (addKey "b" ⟨[⟨"a", KeyStatus.valid, none, none, 0⟩], 0⟩).2 :=
  (c8_invariant 0 "b" 0 0 none [] ⟨[⟨"a", KeyStatus.valid, none, none, 0⟩], 0⟩
    ⟨by decide, by decide⟩).1

/-! ### Claim C3: consecutive rate-limit backoff -/

theorem markRLtimes_closed (T : Nat → Nat) (s : KMState) (k0 : ApiKey)
    (hk : s.keys[s.activeKeyIndex]? = some k0) (h0 : k0.errorCount = 0) :
    ∀ k, 1 ≤ k →
      markRLtimes T k s =
        ⟨s.keys.set s.activeKeyIndex
            ⟨k0.key, KeyStatus.rateLimited, some (T k + 60000 * min k 5), k0.lastUsed, k⟩,
         s.activeKeyIndex⟩ := by
  have hlt : s.activeKeyIndex < s.keys.length := by
    by_contra hge
    rw [List.getElem?_eq_none (by omega)] at hk
    cases hk
  intro k
  induction k with
  | zero => intro h; omega
  | succ n ih =>
    intro _
    by_cases hn : 1 ≤ n
    · rw [markRLtimes, ih hn]
      unfold markCurrentAsRateLimited
      have hget : (s.keys.set s.activeKeyIndex
          (⟨k0.key, KeyStatus.rateLimited, some (T n + 60000 * min n 5), k0.lastUsed,
            n⟩ : ApiKey))[s.activeKeyIndex]? =
          some ⟨k0.key, KeyStatus.rateLimited, some (T n + 60000 * min n 5), k0.lastUsed, n⟩ :=
        List.getElem?_set_self hlt
      simp only [hget, List.set_set, KMState.mk.injEq]
    · have hz : n = 0 := by omega
      subst hz
      rw [markRLtimes, markRLtimes]
      unfold markCurrentAsRateLimited
      simp only [hk, h0, KMState.mk.injEq]

/-- **C3.** Starting from an active key with `errorCount` 0, after the `k`-th
consecutive `markCurrentAsRateLimited` (no override timestamp, no intervening
resurrection), for `k = 1..10`, the key's status is rate-limited, its
`errorCount` equals `k`, and its `resetTime` equals
`now + 60000 × min(k, 5)` milliseconds, where `now` is the time of the `k`-th
call (`T k`). -/
theorem c3_backoff (T : Nat → Nat) (s : KMState) (k0 : ApiKey) (k : Nat)
    (hk : s.keys[s.activeKeyIndex]? = some k0) (h0 : k0.errorCount = 0)
    (h1 : 1 ≤ k) (h10 : k ≤ 10) :
    (markRLtimes T k s).keys[s.activeKeyIndex]? =
      some ⟨k0.key, KeyStatus.rateLimited, some (T k + 60000 * min k 5), k0.lastUsed, k⟩ ∧
    (markRLtimes T k s).activeKeyIndex = s.activeKeyIndex := by
  have hlt : s.activeKeyIndex < s.keys.length := by
    by_contra hge
    rw [List.getElem?_eq_none (by omega)] at hk
    cases hk
  rw [markRLtimes_closed T s k0 hk h0 k h1]
  exact ⟨List.getElem?_set_self hlt, rfl⟩

/-- Witness for `c3_backoff`: seven consecutive rate-limits at times
1000·j give `errorCount = 7` and `resetTime = 7000 + 60000·5`. -/
theorem c3_backoff_witness :
    (markRLtimes (fun j => 1000 * j) 7
        ⟨[⟨"k", KeyStatus.valid, none, none, 0⟩], 0⟩).keys[0]? =
      some ⟨"k", KeyStatus.rateLimited, some 307000, none, 7⟩ ∧
    (markRLtimes (fun j => 1000 * j) 7
        ⟨[⟨"k", KeyStatus.valid, none, none, 0⟩], 0⟩).activeKeyIndex = 0 :=
  c3_backoff (fun j => 1000 * j) ⟨[⟨"k", KeyStatus.valid, none, none, 0⟩], 0⟩
    ⟨"k", KeyStatus.valid, none, none, 0⟩ 7 rfl rfl (by decide) (by decide)

/-! ### Claim C4: persisted state round-trips through init -/

theorem find?_key_self (l : List ApiKey) (hnd : (l.map ApiKey.key).Nodup) :
    ∀ x ∈ l, l.find? (fun k => k.key = x.key) = some x := by
  induction l with
  | nil => intro x hx; cases hx
  | cons a t ih =>
    intro x hx
    rw [List.map_cons, List.nodup_cons] at hnd
    rcases List.mem_cons.mp hx with rfl | hxt
    · rw [List.find?_cons]
      simp
    · rw [List.find?_cons]
      have hne : (a.key = x.key) = False := by
        simp only [eq_iff_iff, iff_false]
        intro he
        exact hnd.1 (he ▸ List.mem_map_of_mem ApiKey.key hxt)
      simp only [hne, decide_False]
      exact ih hnd.2 x hxt

theorem initKeys_roundtrip (l : List ApiKey) (hnd : (l.map ApiKey.key).Nodup) :
    initKeys (l.map ApiKey.key) l = l := by
  unfold initKeys
  rw [List.map_map]
  have hpt : ∀ a ∈ l,
      (match l.find? (fun k => k.key = a.key) with
        | some savedKey =>
          (⟨a.key, savedKey.status, savedKey.resetTime, savedKey.lastUsed,
            savedKey.errorCount⟩ : ApiKey)
        | none => ⟨a.key, KeyStatus.valid, none, none, 0⟩) = a := by
    intro a ha
    rw [find?_key_self l hnd a ha]
  calc l.map ((fun key =>
        match l.find? (fun k => k.key = key) with
        | some savedKey =>
          (⟨key, savedKey.status, savedKey.resetTime, savedKey.lastUsed,
            savedKey.errorCount⟩ : ApiKey)
        | none => ⟨key, KeyStatus.valid, none, none, 0⟩) ∘ ApiKey.key) = l.map id := by
          apply List.map_congr_left
          intro a ha
          exact hpt a ha
    _ = l := List.map_id l

/-- `init` on a config whose flat secret list is present and non-empty:
the single-key fallback is not taken and the pool is the reconciled list,
post-cleanup. -/
theorem init_keys_char (now : Nat) (cfg : GeminiConfig) (ks : List String)
    (hks : cfg.GEMINI_API_KEYS = some ks) (hlen : ks.length ≠ 0) :
    (init now (some cfg)).keys =
      (initKeys ks ((cfg.keyManagerState.map PersistedState.keys).getD [])).map
        (cleanupKey now) := by
  have huse : ¬((cfg.GEMINI_API_KEY.getD "") ≠ "" ∧ ks.length = 0) := by
    intro h
    exact hlen h.2
  simp only [init, cleanupExpiredRateLimits, hks, Option.getD_some]
  rw [if_neg huse]

/-- **C4.** Round-trip: initializing a fresh manager from the configuration
record persisted by a prior manager reproduces each entry's
`status`/`resetTime`/`errorCount` (matched by secret) rather than resetting
all keys to valid, except that a rate-limited entry whose `resetTime` has
already passed is reset to valid with `errorCount` 0; and a configured secret
with no persisted entry becomes a fresh entry with status valid and
`errorCount` 0.  (Secrets are assumed pairwise distinct and reset timestamps
non-zero — a zero timestamp is falsy in the source's cleanup test.) -/
theorem c4_roundtrip :
    (∀ (s0 : KMState) (cfg : Option GeminiConfig) (now0 now1 : Nat),
      s0.keys ≠ [] → (s0.keys.map ApiKey.key).Nodup →
      (∀ k ∈ s0.keys, k.resetTime ≠ some 0) →
      (init now1 (some (persistState now0 s0 cfg))).keys =
        s0.keys.map (fun k =>
          if k.status = KeyStatus.rateLimited ∧ k.resetTime.isSome ∧
              now1 > k.resetTime.getD 0 then
            ⟨k.key, KeyStatus.valid, none, k.lastUsed, 0⟩
          else k)) ∧
    (∀ (cfg : GeminiConfig) (l : List String) (x : String) (i now : Nat),
      cfg.GEMINI_API_KEYS = some l → l[i]? = some x →
      (∀ e ∈ (cfg.keyManagerState.map PersistedState.keys).getD [], e.key ≠ x) →
      (init now (some cfg)).keys[i]? =
        some ⟨x, KeyStatus.valid, none, none, 0⟩) := by
  constructor
  · intro s0 cfg now0 now1 hne hnd hrt
    have hpos : s0.keys.length ≠ 0 := by
      intro h
      exact hne (List.length_eq_zero.mp h)
    have hks : (persistState now0 s0 cfg).GEMINI_API_KEYS = some (s0.keys.map ApiKey.key) := by
      simp [persistState]
    have hsv : ((persistState now0 s0 cfg).keyManagerState.map PersistedState.keys).getD []
        = s0.keys := by
      simp [persistState]
    rw [init_keys_char now1 (persistState now0 s0 cfg) (s0.keys.map ApiKey.key) hks
      (by simpa using hpos), hsv, initKeys_roundtrip s0.keys hnd]
    apply List.map_congr_left
    intro k hkmem
    have hrtk := hrt k hkmem
    cases hrc : k.resetTime with
    | none => simp [cleanupKey, hrc]
    | some rt =>
      have hrne : rt ≠ 0 := by
        intro h
        rw [h] at hrc
        exact hrtk hrc
      simp only [cleanupKey, hrc, Option.isSome_some, Option.getD_some]
      by_cases hc : k.status = KeyStatus.rateLimited ∧ now1 > rt
      · rw [if_pos ⟨hc.1, hrne, hc.2⟩, if_pos (by simpa using hc)]
      · rw [if_neg (by tauto), if_neg (by simpa using hc)]
  · intro cfg l x i now hks hxl hnone
    have hil : i < l.length := by
      by_contra hge
      rw [List.getElem?_eq_none (by omega)] at hxl
      cases hxl
    rw [init_keys_char now cfg l hks (by omega)]
    rw [List.getElem?_map]
    unfold initKeys
    rw [List.getElem?_map, hxl]
    have hfind : (((cfg.keyManagerState.map PersistedState.keys).getD []).find?
        (fun k => k.key = x)) = none := by
      rw [List.find?_eq_none]
      intro e he
      simpa using hnone e he
    simp only [Option.map_some', hfind, cleanupKey]

/-- Witness for `c4_roundtrip`: a two-key pool (one rate-limited-and-expired,
one invalid) survives persist-then-init with the expired entry resurrected and
the invalid entry intact; a fresh secret with no persisted entry comes up
valid. -/
theorem c4_roundtrip_witness :
    (init 50 (some (persistState 10
        ⟨[⟨"x", KeyStatus.rateLimited, some 40, some 3, 2⟩,
          ⟨"y", KeyStatus.invalid, none, none, 4⟩], 1⟩ none))).keys =
      ([⟨"x", KeyStatus.rateLimited, some 40, some 3, 2⟩,
        ⟨"y", KeyStatus.invalid, none, none, 4⟩] : List ApiKey).map (fun k =>
          if k.status = KeyStatus.rateLimited ∧ k.resetTime.isSome ∧
              50 > k.resetTime.getD 0 then
            ⟨k.key, KeyStatus.valid, none, k.lastUsed, 0⟩
          else k) ∧
    (init 7 (some ⟨none, some ["p", "q"], none,
        some ⟨[⟨"p", KeyStatus.invalid, none, none, 1⟩], 0, none⟩⟩)).keys[1]? =
      some ⟨"q", KeyStatus.valid, none, none, 0⟩ :=
  ⟨c4_roundtrip.1 ⟨[⟨"x", KeyStatus.rateLimited, some 40, some 3, 2⟩,
      ⟨"y", KeyStatus.invalid, none, none, 4⟩], 1⟩ none 10 50
      (by decide) (by decide) (by decide),
   c4_roundtrip.2 ⟨none, some ["p", "q"], none,
      some ⟨[⟨"p", KeyStatus.invalid, none, none, 1⟩], 0, none⟩⟩ ["p", "q"] "q" 1 7
      rfl rfl (by decide)⟩

/-! ### Claim C6: removeKey -/

/-- **C6.** `removeKey(i)` returns `false` and leaves the pool and active
index unchanged whenever `i` is out of range or the pool contains exactly one
key; otherwise it removes entry `i` and returns `true`, and the new
`activeKeyIndex` equals `max(0, oldActiveIndex - 1)` when `i ≤ oldActiveIndex`
and equals `oldActiveIndex` otherwise. -/
theorem c6_removeKey (i : Nat) (s : KMState) :
    (i ≥ s.keys.length ∨ s.keys.length = 1 → removeKey i s = (false, s)) ∧
    (i < s.keys.length → 2 ≤ s.keys.length →
      removeKey i s =
        (true, ⟨s.keys.eraseIdx i,
                if i ≤ s.activeKeyIndex then max 0 (s.activeKeyIndex - 1)
                else s.activeKeyIndex⟩)) := by
  constructor
  · intro h
    have hc : i ≥ s.keys.length ∨ s.keys.length ≤ 1 := by omega
    simp [removeKey, hc]
  · intro h1 h2
    have hc : ¬(i ≥ s.keys.length ∨ s.keys.length ≤ 1) := by omega
    simp only [removeKey, if_neg hc, ge_iff_le, Nat.zero_max]

/-- Witness for `c6_removeKey` at a concrete pool. -/
theorem c6_removeKey_witness :
    removeKey 0 ⟨[⟨"a", KeyStatus.valid, none, none, 0⟩,
                  ⟨"b", KeyStatus.invalid, none, none, 2⟩], 1⟩ =
      (true, ⟨[⟨"b", KeyStatus.invalid, none, none, 2⟩], 0⟩) := by
  have h := (c6_removeKey 0 ⟨[⟨"a", KeyStatus.valid, none, none, 0⟩,
                              ⟨"b", KeyStatus.invalid, none, none, 2⟩], 1⟩).2
    (by decide) (by decide)
  simpa using h

/-! ### Claim C9: single-key resurrection -/

/-- **C9.** For a pool with exactly one key that is rate-limited with
`resetTime` strictly in the past, `switchToNextAvailableKey` selects that same
key: the wrap-around scan reaches the current active index as a candidate, the
key is resurrected (status `valid`, `resetTime` cleared, `errorCount` 0) and
returned, with `activeKeyIndex` unchanged, rather than returning none. -/
theorem c9_single_rate_limited (now rt : Nat) (k : ApiKey)
    (hs : k.status = KeyStatus.rateLimited) (hr : k.resetTime = some rt) (hlt : rt < now) :
    switchToNextAvailableKey now ⟨[k], 0⟩ =
      (some ⟨k.key, KeyStatus.valid, none, some now, 0⟩,
       ⟨[⟨k.key, KeyStatus.valid, none, some now, 0⟩], 0⟩) := by
  have hst : k.status ≠ KeyStatus.valid := by rw [hs]; intro h; cases h
  simp [switchToNextAvailableKey, switchGo, hs, hr, hst, hlt]

/-- Witness for `c9_single_rate_limited`. -/
theorem c9_single_rate_limited_witness :
    switchToNextAvailableKey 100 ⟨[⟨"a", KeyStatus.rateLimited, some 50, none, 3⟩], 0⟩ =
      (some ⟨"a", KeyStatus.valid, none, some 100, 0⟩,
       ⟨[⟨"a", KeyStatus.valid, none, some 100, 0⟩], 0⟩) :=
  c9_single_rate_limited 100 50 ⟨"a", KeyStatus.rateLimited, some 50, none, 3⟩
    rfl rfl (by decide)

/-! ### Claim C10: marking with no active entry is a no-op -/

/-- **C10.** When the pool is empty, or the active index does not name an
existing entry, `markCurrentAsRateLimited` and `markCurrentAsInvalid` are
complete no-ops: they change no key, fire no status-change notification,
write no persisted state, and return without error. -/
theorem c10_mark_noop (now : Nat) (rt : Option Nat) (s : KMState)
    (h : s.keys.length ≤ s.activeKeyIndex) :
    markCurrentAsRateLimited now rt s = ⟨s, false, false⟩ ∧
    markCurrentAsInvalid s = ⟨s, false, false⟩ := by
  have hn : s.keys[s.activeKeyIndex]? = none := List.getElem?_eq_none h
  constructor
  · simp [markCurrentAsRateLimited, hn]
  · simp [markCurrentAsInvalid, hn]

/-- Witness for `c10_mark_noop` on the empty pool. -/
theorem c10_mark_noop_witness :
    markCurrentAsRateLimited 5 none ⟨[], 0⟩ = ⟨⟨[], 0⟩, false, false⟩ ∧
    markCurrentAsInvalid ⟨[], 0⟩ = ⟨⟨[], 0⟩, false, false⟩ :=
  c10_mark_noop 5 none ⟨[], 0⟩ (by decide)

/-! ### Claim C7: secret masking -/

/-- Counterexample to **C7** as stated: the secret `"AAAAAAAA...BBBB"` has
length 15 > 12, and its masked form (first 8 characters, ellipsis, last 4
characters) is the raw secret itself, so the raw secret string does appear in
the view returned by `getKeyStatuses`. -/
theorem c7_counterexample :
    (12 < ("AAAAAAAA...BBBB" : String).length) ∧
    (getKeyStatuses 0 ⟨[⟨"AAAAAAAA...BBBB", KeyStatus.valid, none, none, 0⟩], 0⟩).map
        KeyStatusView.key = ["AAAAAAAA...BBBB"] := by
  constructor
  · decide
  · rfl

/-- **C7 (amended).** For every secret longer than 12 characters, the masked
secret surfaced by `getKeyStatuses` consists of exactly the first 8 characters
of the secret, then an ellipsis, then the last 4 characters; the view is
computed from the first 8 and last 4 characters only (two secrets agreeing
there mask identically, so the middle portion never influences the view).  The
original claim's final clause fails: a secret whose own text has the shape
`first8 ++ "..." ++ last4` reappears verbatim as its masked form. -/
theorem c7_masking (now : Nat) (s : KMState) (i : Nat) (k : ApiKey)
    (hk : s.keys[i]? = some k) (hlen : 12 < k.key.length) :
    ((getKeyStatuses now s)[i]?).map KeyStatusView.key =
      some (k.key.take 8 ++ "..." ++ k.key.drop (k.key.length - 4)) ∧
    (∀ key2 : String, 12 < key2.length → key2.take 8 = k.key.take 8 →
      key2.drop (key2.length - 4) = k.key.drop (k.key.length - 4) →
      maskKey key2 = maskKey k.key) := by
  constructor
  · simp [getKeyStatuses, List.getElem?_mapIdx, hk, maskKey]
  · intro key2 hl2 hpre hsuf
    simp [maskKey, hpre, hsuf]

/-- Witness for `c7_masking`. -/
theorem c7_masking_witness :
    ((getKeyStatuses 0 ⟨[⟨"sk-ant-0123456789abcdef", KeyStatus.valid, none, none, 0⟩],
        0⟩)[0]?).map KeyStatusView.key =
      some (("sk-ant-0123456789abcdef" : String).take 8 ++ "..." ++
        ("sk-ant-0123456789abcdef" : String).drop
          (("sk-ant-0123456789abcdef" : String).length - 4)) :=
  (c7_masking 0 ⟨[⟨"sk-ant-0123456789abcdef", KeyStatus.valid, none, none, 0⟩], 0⟩ 0
    ⟨"sk-ant-0123456789abcdef", KeyStatus.valid, none, none, 0⟩ rfl (by decide)).1

/-! ### Claim C1: single-key pool, non-rate-limit synchronous failure -/

/-- Counterexample to **C1** as stated: pool of exactly one valid key, the
transport rejects every attempt synchronously with `"invalid api key"` (which
matches no rate-limit indicator).  The claim says the key is marked invalid;
the code's retry loop only reports failures to the key manager while
`i < maxRetries - 1`, and with one key `maxRetries = 1`, so the key stays
`valid` and the state is unchanged — only the single terminal error event
matches the claim. -/
theorem c1_counterexample :
    (submitQuery (fun _ => TransportResult.failure "invalid api key") 1000
        ⟨[⟨"keyA-secret-0001", KeyStatus.valid, none, none, 0⟩], 0⟩) =
      ⟨[StreamEvent.error "invalid api key"],
       ⟨[⟨"keyA-secret-0001", KeyStatus.valid, none, none, 0⟩], 0⟩, 1⟩ ∧
    KeyStatus.valid ≠ KeyStatus.invalid := by
  constructor
  · rfl
  · decide

/-- **C1 (amended).** For a pool of exactly one key with status valid, if the
transport rejects the first attempt synchronously with a message matching no
rate-limit indicator, then `submitQuery` makes exactly one transport attempt,
does **not** mark the key (the sole attempt is already the last, so
`markCurrentAsInvalid` is never reached and the key stays valid), performs no
rotation, and emits exactly one terminal `error` event whose data is the
transport's original error message. -/
theorem c1_single_key_failure (k : ApiKey) (msg : String) (now : Nat)
    (transport : Nat → TransportResult)
    (hv : k.status = KeyStatus.valid) (hm : isRateLimitError msg = false)
    (ht : transport 0 = TransportResult.failure msg) :
    submitQuery transport now ⟨[k], 0⟩ =
      ⟨[StreamEvent.error msg], ⟨[k], 0⟩, 1⟩ := by
  simp [submitQuery, submitQueryGo, ht]

/-- Witness for `c1_single_key_failure`. -/
theorem c1_single_key_failure_witness :
    submitQuery (fun _ => TransportResult.failure "bad credentials") 42
        ⟨[⟨"keyA-secret-0002", KeyStatus.valid, none, none, 0⟩], 0⟩ =
      ⟨[StreamEvent.error "bad credentials"],
       ⟨[⟨"keyA-secret-0002", KeyStatus.valid, none, none, 0⟩], 0⟩, 1⟩ :=
  c1_single_key_failure ⟨"keyA-secret-0002", KeyStatus.valid, none, none, 0⟩
    "bad credentials" 42 (fun _ => TransportResult.failure "bad credentials")
    rfl (by decide) rfl

end AionUi
